import Mathlib

/-
Verification development for the backtest indicator engine of qlib
(src/qlib/backtest/report.py).

Modelling conventions:
* pandas NaN (the missing sentinel) is modelled by `none` in `Option ℚ`;
  a present numeric value v is `some v`.
* a pandas Series indexed by instrument is an association list
  `List (String × Option ℚ)`; a key that is absent from the list behaves
  like a NaN under arithmetic alignment, exactly as reindexing makes it.
* pandas `.sum()` skips missing values (skipna), `.count()` counts the
  present ones, `.mean()` is their quotient; a comparison against NaN is
  false.  Division by zero yields an invalid numeric value in the source
  (inf or NaN); it is modelled as `none`, and every theorem that touches
  a quotient carries the corresponding nonzero hypothesis.
* machine floats are modelled by ℚ.
-/

deriving instance DecidableEq for Except

namespace Qlib

/-- A single pandas cell: `none` is NaN, `some v` a present value. -/
abbrev Cell := Option ℚ

/-- An instrument-indexed pandas Series. -/
abbrev Series := List (String × Cell)

/-- Looking a key up in a series: an absent key behaves as NaN, like a
pandas reindex would make it. -/
def lookupCell : Series → String → Cell
  | [], _ => none
  | kv :: rest, k => if kv.1 = k then kv.2 else lookupCell rest k

/-- The index (key list) of a series. -/
def seriesKeys (s : Series) : List String := s.map Prod.fst

/-- Outer union of two key lists, keeping first-occurrence order, the way
pandas aligns two series for a binary operation. -/
def unionKeys (a b : List String) : List String :=
  a ++ b.filter (fun k => decide (k ∉ a))

/-- Outer union of the key lists of many series. -/
def unionKeysAll : List Series → List String
  | [] => []
  | s :: rest => unionKeys (seriesKeys s) (unionKeysAll rest)

/-- Elementwise combination of two cells; NaN propagates. -/
def cellBin (f : ℚ → ℚ → ℚ) : Cell → Cell → Cell
  | some a, some b => some (f a b)
  | _, _ => none

/-- Cell multiplication. -/
def cellMul : Cell → Cell → Cell := cellBin (· * ·)

/-- Cell division; a zero denominator gives the invalid-value sentinel. -/
def cellDiv : Cell → Cell → Cell
  | some a, some b => if b = 0 then none else some (a / b)
  | _, _ => none

/-- Aligned binary operation on two series (pandas outer alignment). -/
def seriesBin (f : Cell → Cell → Cell) (a b : Series) : Series :=
  (unionKeys (seriesKeys a) (seriesKeys b)).map
    (fun k => (k, f (lookupCell a k) (lookupCell b k)))

/-- Elementwise product of two series. -/
def seriesMul : Series → Series → Series := seriesBin cellMul

/-- Elementwise quotient of two series. -/
def seriesDiv : Series → Series → Series := seriesBin cellDiv

/-- Elementwise absolute value (`Series.abs`); NaN stays NaN. -/
def seriesAbs (s : Series) : Series := s.map (fun kv => (kv.1, kv.2.map (|·|)))

/-- pandas `Series.sum()` with skipna: missing entries contribute 0. -/
def sumPresent (s : Series) : ℚ :=
  s.foldl (fun acc kv => acc + kv.2.getD 0) 0

/-- pandas `Series.count()`: number of present entries. -/
def countPresent (s : Series) : ℕ :=
  (s.filter (fun kv => kv.2.isSome)).length

/-- pandas `Series.mean()`: skipna sum over present count, NaN when empty. -/
def seriesMean (s : Series) : Cell :=
  if countPresent s = 0 then none
  else some (sumPresent s / (countPresent s : ℚ))

/-- Modelled from the spec (§4.1 MetricTable.sum_all, the implementation
lives in high_performance_ds which is not part of the sources): outer-union
the instrument keys across all tables, substitute `fill` for missing
entries and sum element-wise. -/
def sum_all_indicators (ss : List Series) (fill : ℚ) : Series :=
  (unionKeysAll ss).map
    (fun k => (k, some (ss.foldl (fun acc s => acc + (lookupCell s k).getD fill) 0)))

/-- pandas `Series.replace` of NaN by 0: present entries only are mapped,
an absent key stays absent. -/
def replaceNaNWithZero (s : Series) : Series :=
  s.map (fun kv => (kv.1, some (kv.2.getD 0)))

/-- pandas `Series.replace` of 0 by NaN. -/
def replaceZeroWithNaN (s : Series) : Series :=
  s.map (fun kv => (kv.1, if kv.2 = some 0 then none else kv.2))

/-- The metric table owned by one OrderIndicator for one step
(spec §3: fixed column set; a column that was never assigned is empty). -/
structure OrderIndicatorTable where
  amount : Series := []
  inner_amount : Series := []
  deal_amount : Series := []
  trade_price : Series := []
  trade_value : Series := []
  trade_cost : Series := []
  trade_dir : Series := []
  ffr : Series := []
  pa : Series := []
  base_price : Series := []
  base_volume : Series := []
deriving Repr

/-- The table of a freshly reset OrderIndicator. -/
def emptyTable : OrderIndicatorTable := {}

/-- Modelled from the spec (§4.4 step 4; Order.parse_dir is not part of the
sources): the canonical direction-decode normalizing a summed direction
code back to the set containing 0 and 1. -/
def parse_dir (q : ℚ) : ℚ := if q ≤ 0 then 0 else 1

/-- Indicator._agg_order_trade_info: rewrite each child trade_price column
as deal_amount × trade_price, sum the six additive metrics across children
with fill value 0, recover the average price by dividing the summed
notional by the summed deal_amount (a zero summed deal_amount is first
replaced by NaN so the division does not produce inf), and normalize the
summed direction codes. -/
def agg_order_trade_info (inner : List OrderIndicatorTable)
    (t : OrderIndicatorTable) : OrderIndicatorTable :=
  let inner : List OrderIndicatorTable := inner.map
    (fun c => { c with trade_price := seriesMul c.deal_amount c.trade_price })
  let t : OrderIndicatorTable := { t with
    inner_amount := sum_all_indicators (inner.map (·.inner_amount)) 0
    deal_amount := sum_all_indicators (inner.map (·.deal_amount)) 0
    trade_price := sum_all_indicators (inner.map (·.trade_price)) 0
    trade_value := sum_all_indicators (inner.map (·.trade_value)) 0
    trade_cost := sum_all_indicators (inner.map (·.trade_cost)) 0
    trade_dir := sum_all_indicators (inner.map (·.trade_dir)) 0 }
  let t : OrderIndicatorTable := { t with
    trade_price := seriesDiv t.trade_price (replaceZeroWithNaN t.deal_amount) }
  { t with trade_dir := t.trade_dir.map (fun kv => (kv.1, kv.2.map parse_dir)) }

/-- The outer trade decision as consumed here: its order list
(stock_id, amount_delta) and an optional trade range. -/
inductive TradeRange where
  | idx
  | timeSeg (s e : ℚ)
deriving DecidableEq, Repr

/-- The decision object fields that report.py reads. -/
structure BaseTradeDecision where
  orders : List (String × ℚ) := []
  trade_range : Option TradeRange := none
deriving Repr

/-- Indicator._update_trade_amount: assign the amount column from the outer
decision directly; zero orders give the empty column. The dict
comprehension of the source overwrites duplicated stock ids, modelled by an
upsert fold. -/
def dictAssign (s : Series) (k : String) (v : Cell) : Series :=
  if (seriesKeys s).contains k then
    s.map (fun kv => if kv.1 = k then (k, v) else kv)
  else s ++ [(k, v)]

def update_trade_amount (outer : BaseTradeDecision)
    (t : OrderIndicatorTable) : OrderIndicatorTable :=
  if outer.orders.isEmpty then { t with amount := [] }
  else { t with amount := outer.orders.foldl (fun acc o => dictAssign acc o.1 (some o.2)) [] }

/-- The inner function of Indicator._update_order_fulfill_rate: replace a
NaN deal_amount by 0, then divide by amount. -/
def ffr_func (deal_amount amount : Series) : Series :=
  seriesDiv (replaceNaNWithZero deal_amount) amount

/-- Indicator._update_order_fulfill_rate. -/
def update_order_fulfill_rate (t : OrderIndicatorTable) : OrderIndicatorTable :=
  { t with ffr := ffr_func t.deal_amount t.amount }

/-- A time-indexed market-data series (timestamp, possibly-NaN value). -/
abbrev TimeSeries := List (ℚ × Cell)

/-- What Exchange.get_deal_price may hand back: a scalar or a series
(returning nothing at all is `none` at the call site). -/
inductive PriceData where
  | scalar (v : ℚ)
  | series (s : TimeSeries)
deriving Repr

/-- The two Exchange queries consumed by report.py, as an external
collaborator: deal prices (by instrument, window and direction) and traded
volumes. -/
structure Exchange where
  get_deal_price : String → ℚ → ℚ → Cell → Option PriceData
  get_volume : String → ℚ → ℚ → TimeSeries

/-- The failures raised inside Indicator._get_base_vol_pri:
`unsupportedRange` is the TypeError raised on an IdxTradeRange and
`unsupportedPolicy` the NotImplementedError raised on an unknown price
source or aggregation policy. -/
inductive BaseVolPriError where
  | unsupportedRange
  | unsupportedPolicy (which : String)
deriving DecidableEq, Repr

/-- The fixed epsilon 1e-8 below which a price counts as no-trade noise. -/
def eps : ℚ := 1 / 100000000

/-- The filter predicate of the source, `price_s[~(price_s < 1e-08)]`:
a present price below eps is dropped; a NaN price compares as false and is
therefore kept. -/
def cellLtEps : Cell → Bool
  | some v => decide (v < eps)
  | none => false

/-- The epsilon filter applied to the deal-price series. -/
def price_epsilon_filter (s : TimeSeries) : TimeSeries :=
  s.filter (fun tv => !cellLtEps tv.2)

/-- pandas skipna sum over a time series. -/
def tsSumPresent (s : TimeSeries) : ℚ :=
  s.foldl (fun acc tv => acc + tv.2.getD 0) 0

/-- Lookup of a timestamp in a time series (`Series.reindex` on one key). -/
def tsLookup : TimeSeries → ℚ → Cell
  | [], _ => none
  | tv :: rest, t => if tv.1 = t then tv.2 else tsLookup rest t

/-- Modelled from the spec (§4.2 step 1; the trade-range classes live in
order.py which is not part of the sources): a time-segment range clips the
window by intersection.  The Idx constructor never reaches this function
because _get_base_vol_pri rejects it first. -/
def clip_time_range : TradeRange → ℚ → ℚ → ℚ × ℚ
  | .timeSeg a b, s, e => (max s a, min e b)
  | .idx, s, e => (s, e)

/-- Indicator._get_base_vol_pri, translated statement by statement:
reject an IdxTradeRange, clip the window to any other range, reject a
price source other than deal_price, return no baseline when the exchange
has no data, wrap a scalar price, drop prices below eps (NaN prices
survive the filter), weight by reindexed volume (vwap) or by 1 (twap),
reject any other aggregation, and return
(sum of price times weight over sum of weights, sum of weights).
A zero weight sum makes the price quotient the invalid-value sentinel. -/
def get_base_vol_pri (ex : Exchange) (inst : String) (ts te : ℚ)
    (direction : Cell) (decision : BaseTradeDecision) (agg price : String) :
    Except BaseVolPriError (Option (Cell × ℚ)) := do
  let (ts, te) ← (match decision.trade_range with
    | some .idx => (.error .unsupportedRange : Except BaseVolPriError (ℚ × ℚ))
    | some (.timeSeg a b) => .ok (clip_time_range (.timeSeg a b) ts te)
    | none => .ok (ts, te))
  let priceData ← (if price = "deal_price" then
      (.ok (ex.get_deal_price inst ts te direction) :
        Except BaseVolPriError (Option PriceData))
    else .error (.unsupportedPolicy price))
  match priceData with
  | none => return none
  | some pd =>
    let price_s : TimeSeries := match pd with
      | .scalar v => [(ts, some v)]
      | .series s => s
    let price_s := price_epsilon_filter price_s
    let volume_s ← (if agg = "vwap" then
        (.ok (price_s.map (fun tv => (tv.1, tsLookup (ex.get_volume inst ts te) tv.1))) :
          Except BaseVolPriError TimeSeries)
      else if agg = "twap" then
        .ok (price_s.map (fun tv => (tv.1, (some 1 : Cell))))
      else .error (.unsupportedPolicy agg))
    let base_volume : ℚ := tsSumPresent volume_s
    let numerator : ℚ :=
      tsSumPresent ((price_s.zip volume_s).map (fun pv => (pv.1.1, cellMul pv.1.2 pv.2.2)))
    let base_price : Cell :=
      if base_volume = 0 then none else some (numerator / base_volume)
    return some (base_price, base_volume)

/-- Indicator._agg_base_price: with a nonempty trade_dir index, visit every
(child indicator, decision window) pair; for each instrument of the index
reuse a present child baseline price/volume, otherwise query
_get_base_vol_pri and keep a successful result; finally combine all
observations per instrument by volume-weighted average into the
base_price/base_volume columns.  An empty trade_dir index leaves the table
untouched. -/
def agg_base_price (ex : Exchange) (t : OrderIndicatorTable)
    (inner : List OrderIndicatorTable)
    (decision_list : List (BaseTradeDecision × ℚ × ℚ))
    (agg price : String) : Except BaseVolPriError OrderIndicatorTable := do
  let trade_dir := t.trade_dir
  if trade_dir.length > 0 then
    let news ← (inner.zip decision_list).mapM
      (fun od =>
        trade_dir.foldlM
          (fun (acc : Series × Series) kv => do
            let inst := kv.1
            match lookupCell od.1.base_price inst with
            | none => do
              match ← get_base_vol_pri ex inst od.2.2.1 od.2.2.2 kv.2 od.2.1 agg price with
              | some bpbv =>
                return (acc.1 ++ [(inst, bpbv.1)], acc.2 ++ [(inst, some bpbv.2)])
              | none => return acc
            | some pr =>
              return (acc.1 ++ [(inst, some pr)], acc.2 ++ [(inst, lookupCell od.1.base_volume inst)]))
          (([], []) : Series × Series))
    let bpAll : List Series := news.map Prod.fst
    let bvAll : List Series := news.map Prod.snd
    let ks := unionKeysAll bvAll
    let bvSum : String → ℚ := fun k =>
      bvAll.foldl (fun acc s => acc + (lookupCell s k).getD 0) 0
    let numSum : String → ℚ := fun k =>
      (bpAll.zip bvAll).foldl
        (fun acc sv => acc + (cellMul (lookupCell sv.1 k) (lookupCell sv.2 k)).getD 0) 0
    return { t with
      base_volume := ks.map (fun k => (k, some (bvSum k)))
      base_price := ks.map (fun k =>
        (k, if bvSum k = 0 then none else some (numSum k / bvSum k))) }
  else
    return t

/-- The elementwise price-advantage formula of the source:
sign = 1 - trade_dir * 2 and pa = sign * (trade_price / base_price - 1);
NaN anywhere propagates and a zero base price gives the invalid value. -/
def paCell (dir p b : Cell) : Cell :=
  match dir, p, b with
  | some d, some pv, some bv =>
    if bv = 0 then none else some ((1 - d * 2) * (pv / bv - 1))
  | _, _, _ => none

/-- Aligned price-advantage column over the union of the three indexes. -/
def paSeries (dir p b : Series) : Series :=
  (unionKeysAll [dir, p, b]).map
    (fun k => (k, paCell (lookupCell dir k) (lookupCell p k) (lookupCell b k)))

/-- Indicator._agg_order_price_advantage: with an empty trade_price column
the pa column is assigned empty, otherwise computed by the formula. -/
def agg_order_price_advantage (t : OrderIndicatorTable) : OrderIndicatorTable :=
  if t.trade_price.isEmpty then { t with pa := [] }
  else { t with pa := paSeries t.trade_dir t.trade_price t.base_price }

/-- Indicator.agg_order_indicators: the full per-step aggregation pipeline
in source order. -/
def agg_order_indicators (ex : Exchange) (inner : List OrderIndicatorTable)
    (decision_list : List (BaseTradeDecision × ℚ × ℚ))
    (outer : BaseTradeDecision) (agg price : String)
    (t : OrderIndicatorTable) : Except BaseVolPriError OrderIndicatorTable := do
  let t := agg_order_trade_info inner t
  let t := update_trade_amount outer t
  let t := update_order_fulfill_rate t
  let t ← agg_base_price ex t inner decision_list agg price
  return agg_order_price_advantage t

/-- The weighted reductions shared by the ffr and pa summaries:
skipna sum of metric times absolute weight over skipna sum of absolute
weight; a zero denominator is the invalid value. -/
def weightedBy (metric weight : Series) : Cell :=
  let den := sumPresent (seriesAbs weight)
  if den = 0 then none
  else some (sumPresent (seriesMul metric (seriesAbs weight)) / den)

/-- Indicator._cal_trade_fulfill_rate. -/
def cal_trade_fulfill_rate (method : String) (t : OrderIndicatorTable) :
    Except String Cell :=
  if method = "mean" then .ok (seriesMean t.ffr)
  else if method = "amount_weighted" then .ok (weightedBy t.ffr t.deal_amount)
  else if method = "value_weighted" then .ok (weightedBy t.ffr t.trade_value)
  else .error ("method " ++ method ++ " is not supported!")

/-- Indicator._cal_trade_price_advantage. -/
def cal_trade_price_advantage (method : String) (t : OrderIndicatorTable) :
    Except String Cell :=
  if method = "mean" then .ok (seriesMean t.pa)
  else if method = "amount_weighted" then .ok (weightedBy t.pa t.deal_amount)
  else if method = "value_weighted" then .ok (weightedBy t.pa t.trade_value)
  else .error ("method " ++ method ++ " is not supported!")

/-- Indicator._cal_trade_positive_rate: count of strictly positive pa over
count of present pa (a NaN compares as not positive). -/
def cal_trade_positive_rate (t : OrderIndicatorTable) : Cell :=
  if countPresent t.pa = 0 then none
  else some (((t.pa.filter (fun kv => match kv.2 with
      | some v => decide (0 < v)
      | none => false)).length : ℚ) / (countPresent t.pa : ℚ))

/-- Indicator._cal_deal_amount: skipna sum of absolute deal amounts. -/
def cal_deal_amount (t : OrderIndicatorTable) : ℚ :=
  sumPresent (seriesAbs t.deal_amount)

/-- Indicator._cal_trade_value: skipna sum of absolute trade values. -/
def cal_trade_value (t : OrderIndicatorTable) : ℚ :=
  sumPresent (seriesAbs t.trade_value)

/-- Indicator._cal_trade_order_count: number of present amount entries. -/
def cal_trade_order_count (t : OrderIndicatorTable) : ℕ :=
  countPresent t.amount

/-- One step-level summary dict. -/
abbrev TradeSummary := List (String × Cell)

/-- Indicator.cal_trade_indicators, building the six-entry summary. -/
def cal_trade_indicators (ffr_method pa_method : String)
    (t : OrderIndicatorTable) : Except String TradeSummary := do
  let ffr ← cal_trade_fulfill_rate ffr_method t
  let pa ← cal_trade_price_advantage pa_method t
  return [("ffr", ffr), ("pa", pa), ("pos", cal_trade_positive_rate t),
    ("deal_amount", some (cal_deal_amount t)), ("value", some (cal_trade_value t)),
    ("count", some ((cal_trade_order_count t : ℚ)))]

/-- OrderedDict assignment `his[key] = value`: updating an existing key in
place, appending a fresh one. -/
def od_insert {α : Type} (h : List (ℚ × α)) (k : ℚ) (v : α) : List (ℚ × α) :=
  if h.any (fun kv => kv.1 = k) then
    h.map (fun kv => if kv.1 = k then (k, v) else kv)
  else h ++ [(k, v)]

/-- The history-owning state of one Indicator instance. -/
structure IndicatorState where
  order_indicator_his : List (ℚ × OrderIndicatorTable) := []
  trade_indicator_his : List (ℚ × TradeSummary) := []
  order_indicator : OrderIndicatorTable := {}
  trade_indicator : TradeSummary := []

/-- Indicator.record: archive the current order indicator and trade
indicator under the step start time. -/
def Indicator.record (st : IndicatorState) (trade_start_time : ℚ) : IndicatorState :=
  { st with
    order_indicator_his := od_insert st.order_indicator_his trade_start_time st.order_indicator
    trade_indicator_his := od_insert st.trade_indicator_his trade_start_time st.trade_indicator }

/-- Indicator.generate_trade_indicators_dataframe:
pd.DataFrame.from_dict(his, orient="index") materializes the rows in the
insertion order of the OrderedDict; it performs no sorting. -/
def generate_trade_indicators_dataframe (st : IndicatorState) :
    List (ℚ × TradeSummary) :=
  st.trade_indicator_his

/-- The Report state: one OrderedDict per recorded scalar, the benchmark
series and the latest report time. -/
structure Report where
  bench : Option (List (ℚ × ℚ)) := none
  accounts : List (ℚ × ℚ) := []
  returns : List (ℚ × ℚ) := []
  total_turnovers : List (ℚ × ℚ) := []
  turnovers : List (ℚ × ℚ) := []
  total_costs : List (ℚ × ℚ) := []
  costs : List (ℚ × ℚ) := []
  values : List (ℚ × ℚ) := []
  cashes : List (ℚ × ℚ) := []
  benches : List (ℚ × Option ℚ) := []
  latest_report_time : Option ℚ := none

/-- Modelled from the spec (§6; resam_ts_data lives outside the sources):
select the benchmark entries inside the window and apply the change
reduction of Report._sample_benchmark, the product of (x + 1); an empty
selection yields no data. -/
def resam_ts_data (bench : List (ℚ × ℚ)) (ts te : ℚ) : Option ℚ :=
  let sel := bench.filter (fun tv => decide (ts ≤ tv.1) && decide (tv.1 ≤ te))
  if sel.isEmpty then none else some ((sel.map (fun tv => tv.2 + 1)).prod)

/-- Report._sample_benchmark: nothing without a benchmark series, 0.0 when
the window holds no data, otherwise the resampled change minus 1. -/
def sample_benchmark (r : Report) (ts te : ℚ) : Option ℚ :=
  match r.bench with
  | none => none
  | some b =>
    match resam_ts_data b ts te with
    | none => some 0
    | some ret => some (ret - 1)

/-- Report.update_report_record, translated statement by statement.  The
result pairs the Report state after the call with the raised error message
if any; both validation raises happen before the first mutation, so they
return the incoming state. -/
def update_report_record (r : Report)
    (trade_start_time trade_end_time account_value cash return_rate
      total_turnover turnover_rate total_cost cost_rate stock_value
      bench_value : Option ℚ) : Report × Option String :=
  if trade_start_time = none ∨ account_value = none ∨ cash = none ∨
      return_rate = none ∨ total_turnover = none ∨ turnover_rate = none ∨
      total_cost = none ∨ cost_rate = none ∨ stock_value = none then
    (r, some "None in required report fields")
  else if trade_end_time = none ∧ bench_value = none then
    (r, some "Both trade_end_time and bench_value is None, benchmark is not usable.")
  else
    match trade_start_time, account_value, cash, return_rate, total_turnover,
      turnover_rate, total_cost, cost_rate, stock_value with
    | some ts, some av, some ch, some rr, some tt, some tr, some tc, some cr, some sv =>
      let bench : Option ℚ :=
        match bench_value, trade_end_time with
        | some b, _ => some b
        | none, some te => sample_benchmark r ts te
        | none, none => none
      ({ r with
        accounts := od_insert r.accounts ts av
        returns := od_insert r.returns ts rr
        total_turnovers := od_insert r.total_turnovers ts tt
        turnovers := od_insert r.turnovers ts tr
        total_costs := od_insert r.total_costs ts tc
        costs := od_insert r.costs ts cr
        values := od_insert r.values ts sv
        cashes := od_insert r.cashes ts ch
        benches := od_insert r.benches ts bench
        latest_report_time := some ts }, none)
    | _, _, _, _, _, _, _, _, _ => (r, some "None in required report fields")

/-- A child indicator table reporting a single instrument with known
deal_amount d and trade_price p (the other additive metrics play no role
in price recovery). -/
def singletonChild (inst : String) (d p : ℚ) : OrderIndicatorTable :=
  { amount := [(inst, some d)], inner_amount := [(inst, some d)],
    deal_amount := [(inst, some d)], trade_price := [(inst, some p)],
    trade_value := [(inst, some (d * p))], trade_cost := [(inst, some 0)],
    trade_dir := [(inst, some 0)], ffr := [], pa := [],
    base_price := [], base_volume := [] }

/-- An exchange whose deal-price query always returns the given series. -/
def seriesExchange (s : TimeSeries) : Exchange :=
  { get_deal_price := fun _ _ _ _ => some (.series s), get_volume := fun _ _ _ => [] }

/-- An exchange with no market data at all. -/
def noneExchange : Exchange :=
  { get_deal_price := fun _ _ _ _ => none, get_volume := fun _ _ _ => [] }

/-- A decision without a trade-range restriction. -/
def noRangeDecision : BaseTradeDecision := {}

/-- A decision carrying the discrete-index trade range. -/
def idxDecision : BaseTradeDecision := { trade_range := some TradeRange.idx }

/-- An outer decision with zero orders. -/
def emptyDecision : BaseTradeDecision := {}

/-- Run a sequence of steps through the history: each step sets the
current trade indicator and archives it under its start time. -/
def archive_steps (steps : List (ℚ × TradeSummary)) (st : IndicatorState) :
    IndicatorState :=
  steps.foldl (fun s p => Indicator.record { s with trade_indicator := p.2 } p.1) st

/-- A step table built from per-instrument triples
(instrument, pa value, signed deal_amount). -/
def paTable (l : List (String × ℚ × ℚ)) : OrderIndicatorTable :=
  { emptyTable with
    pa := l.map (fun kv => (kv.1, some kv.2.1)),
    deal_amount := l.map (fun kv => (kv.1, some kv.2.2)) }

/-- Table for the fill-rate witness: amount 10, deal_amount recorded but
missing. -/
def ffrWitnessTable : OrderIndicatorTable :=
  { emptyTable with amount := [("a", some 10)], deal_amount := [("a", none)] }

/-- Table for the price-advantage witness: a buy and a sell both filled at
100 against a baseline of 90. -/
def paWitnessTable : OrderIndicatorTable :=
  { emptyTable with
    trade_dir := [("a", some 0), ("b", some 1)],
    trade_price := [("a", some 100), ("b", some 100)],
    base_price := [("a", some 90), ("b", some 90)] }

/-- Table with a missing pa entry but equal deal amounts everywhere. -/
def mixedPaTable : OrderIndicatorTable :=
  { emptyTable with
    pa := [("a", some (1 / 10)), ("b", none)],
    deal_amount := [("a", some 1), ("b", some 1)] }

theorem lookupCell_map_keys (ks : List String) (g : String → Cell) (k : String)
    (h : k ∈ ks) : lookupCell (ks.map (fun j => (j, g j))) k = g k := by
  induction ks with
  | nil => cases h
  | cons a rest ih =>
    simp only [List.map_cons, lookupCell]
    by_cases hak : a = k
    · subst hak
      exact if_pos rfl
    · rw [if_neg hak]
      rcases List.mem_cons.mp h with h1 | h2
      · exact absurd h1.symm hak
      · exact ih h2

theorem mem_keys_of_lookupCell {s : Series} {k : String} {v : Cell}
    (h : lookupCell s k = v) (hv : v ≠ none) : k ∈ seriesKeys s := by
  induction s with
  | nil => exact absurd h.symm hv
  | cons kv rest ih =>
    simp only [lookupCell] at h
    by_cases hek : kv.1 = k
    · exact List.mem_cons.mpr (Or.inl hek.symm)
    · rw [if_neg hek] at h
      exact List.mem_cons.mpr (Or.inr (ih h))

theorem mem_unionKeys {k : String} {a b : List String} :
    k ∈ unionKeys a b ↔ k ∈ a ∨ k ∈ b := by
  simp only [unionKeys, List.mem_append, List.mem_filter, decide_eq_true_eq]
  constructor
  · rintro (h | ⟨h, _⟩)
    · exact Or.inl h
    · exact Or.inr h
  · intro h
    by_cases ha : k ∈ a
    · exact Or.inl ha
    · rcases h with h | h
      · exact absurd h ha
      · exact Or.inr ⟨h, ha⟩

theorem unionKeys_self (ks : List String) : unionKeys ks ks = ks := by
  have : ks.filter (fun k => decide (k ∉ ks)) = [] :=
    List.filter_eq_nil_iff.mpr (fun a ha => by simp [ha])
  simp [unionKeys, this]

theorem unionKeys_nil_right (ks : List String) : unionKeys ks [] = ks := by
  simp [unionKeys]

theorem lookupCell_seriesBin (f : Cell → Cell → Cell) (a b : Series) (k : String)
    (h : k ∈ unionKeys (seriesKeys a) (seriesKeys b)) :
    lookupCell (seriesBin f a b) k = f (lookupCell a k) (lookupCell b k) :=
  lookupCell_map_keys _ _ _ h

theorem seriesKeys_mapVal (h : Cell → Cell) (s : Series) :
    seriesKeys (s.map (fun kv => (kv.1, h kv.2))) = seriesKeys s := by
  induction s with
  | nil => rfl
  | cons kv rest ih => simp [seriesKeys]

theorem lookupCell_mapVal (h : Cell → Cell) (s : Series) (k : String)
    (hk : k ∈ seriesKeys s) :
    lookupCell (s.map (fun kv => (kv.1, h kv.2))) k = h (lookupCell s k) := by
  induction s with
  | nil => cases hk
  | cons kv rest ih =>
    simp only [List.map_cons, lookupCell]
    by_cases hek : kv.1 = k
    · rw [if_pos hek, if_pos hek]
    · rw [if_neg hek, if_neg hek]
      rcases List.mem_cons.mp hk with h1 | h2
      · exact absurd h1.symm hek
      · exact ih h2

theorem foldl_add_getD {κ : Type} (l : List (κ × Cell)) (c : ℚ) :
    l.foldl (fun acc kv => acc + kv.2.getD 0) c
      = c + (l.map (fun kv => kv.2.getD 0)).sum := by
  induction l generalizing c with
  | nil => simp
  | cons kv rest ih =>
    simp only [List.foldl_cons, List.map_cons, List.sum_cons, ih]
    ring

theorem sumPresent_eq (s : Series) :
    sumPresent s = (s.map (fun kv => kv.2.getD 0)).sum := by
  simpa using foldl_add_getD s 0

theorem tsSumPresent_eq (s : TimeSeries) :
    tsSumPresent s = (s.map (fun kv => kv.2.getD 0)).sum := by
  simpa using foldl_add_getD s 0

theorem lookupCell_replaceNaN (s : Series) (k : String) (hk : k ∈ seriesKeys s) :
    lookupCell (replaceNaNWithZero s) k = some ((lookupCell s k).getD 0) :=
  lookupCell_mapVal (fun c => some (c.getD 0)) s k hk

theorem lookupCell_replaceZero (s : Series) (k : String) (hk : k ∈ seriesKeys s) :
    lookupCell (replaceZeroWithNaN s) k
      = (if lookupCell s k = some 0 then none else lookupCell s k) :=
  lookupCell_mapVal (fun c => if c = some 0 then none else c) s k hk

theorem mem_unionKeysAll {k : String} {ss : List Series} :
    k ∈ unionKeysAll ss ↔ ∃ s ∈ ss, k ∈ seriesKeys s := by
  induction ss with
  | nil => simp [unionKeysAll]
  | cons s rest ih => simp [unionKeysAll, mem_unionKeys, ih]

/-- C2: for a table with an amount column (division by a zero amount is a
documented precondition, hence the nonzero hypothesis), the fill-rate pass
sets ffr = deal_amount / amount per instrument, and an instrument whose
deal_amount entry is recorded but missing gets ffr = 0 rather than a
missing value. -/
theorem fulfill_rate_missing_deal_is_zero (t : OrderIndicatorTable) (k : String)
    (a : ℚ) (ha : a ≠ 0) (hak : lookupCell t.amount k = some a) :
    (∀ d : ℚ, lookupCell t.deal_amount k = some d →
      lookupCell (update_order_fulfill_rate t).ffr k = some (d / a)) ∧
    (k ∈ seriesKeys t.deal_amount → lookupCell t.deal_amount k = none →
      lookupCell (update_order_fulfill_rate t).ffr k = some 0) := by
  have hmem : k ∈ unionKeys (seriesKeys (replaceNaNWithZero t.deal_amount))
      (seriesKeys t.amount) :=
    mem_unionKeys.mpr (Or.inr (mem_keys_of_lookupCell hak (by simp)))
  have hffr : (update_order_fulfill_rate t).ffr
      = seriesDiv (replaceNaNWithZero t.deal_amount) t.amount := rfl
  constructor
  · intro d hd
    have hkd : k ∈ seriesKeys t.deal_amount := mem_keys_of_lookupCell hd (by simp)
    rw [hffr, seriesDiv, lookupCell_seriesBin _ _ _ _ hmem,
      lookupCell_replaceNaN _ _ hkd, hd, hak]
    simp [cellDiv, ha]
  · intro hkd hnone
    rw [hffr, seriesDiv, lookupCell_seriesBin _ _ _ _ hmem,
      lookupCell_replaceNaN _ _ hkd, hnone, hak]
    simp [cellDiv, ha]

theorem fulfill_rate_missing_deal_is_zero_witness :
    lookupCell (update_order_fulfill_rate ffrWitnessTable).ffr "a" = some 0 :=
  (fulfill_rate_missing_deal_is_zero ffrWitnessTable "a" 10 (by norm_num)
    (by decide)).2 (by decide) (by decide)

/-- C3: on an aggregated table with a nonempty trade_price column, the
price-advantage pass sets pa = (1 - 2 trade_dir) (trade_price / base_price - 1)
for every instrument whose direction, fill price and baseline price are
present (a zero baseline is the documented invalid-value case, hence the
nonzero hypothesis). -/
theorem price_advantage_formula (t : OrderIndicatorTable) (k : String)
    (d p b : ℚ) (hne : t.trade_price ≠ [])
    (hd : lookupCell t.trade_dir k = some d)
    (hp : lookupCell t.trade_price k = some p)
    (hb : lookupCell t.base_price k = some b) (hb0 : b ≠ 0) :
    lookupCell (agg_order_price_advantage t).pa k
      = some ((1 - 2 * d) * (p / b - 1)) := by
  have hkp : k ∈ seriesKeys t.trade_price := mem_keys_of_lookupCell hp (by simp)
  have hmem : k ∈ unionKeysAll [t.trade_dir, t.trade_price, t.base_price] :=
    mem_unionKeysAll.mpr ⟨t.trade_price, by simp, hkp⟩
  have hpa : (agg_order_price_advantage t).pa
      = paSeries t.trade_dir t.trade_price t.base_price := by
    unfold agg_order_price_advantage
    rw [if_neg (by simp [List.isEmpty_iff, hne])]
  rw [hpa, paSeries, lookupCell_map_keys _ _ _ hmem, hd, hp, hb]
  simp only [paCell, if_neg hb0]
  congr 1
  ring

theorem price_advantage_formula_witness :
    lookupCell (agg_order_price_advantage paWitnessTable).pa "a" = some (1 / 9) ∧
    lookupCell (agg_order_price_advantage paWitnessTable).pa "b" = some (-(1 / 9)) := by
  constructor
  · rw [price_advantage_formula paWitnessTable "a" 0 100 90 (by decide) (by decide)
      (by decide) (by decide) (by norm_num)]
    norm_num
  · rw [price_advantage_formula paWitnessTable "b" 1 100 90 (by decide) (by decide)
      (by decide) (by decide) (by norm_num)]
    norm_num

theorem seriesBin_singleton (f : Cell → Cell → Cell) (k : String) (x y : Cell) :
    seriesBin f [(k, x)] [(k, y)] = [(k, f x y)] := by
  have h1 : lookupCell [(k, x)] k = x := by simp [lookupCell]
  have h2 : lookupCell [(k, y)] k = y := by simp [lookupCell]
  have hk : unionKeys (seriesKeys [(k, x)]) (seriesKeys [(k, y)]) = [k] := by
    simpa [seriesKeys] using unionKeys_self [k]
  rw [seriesBin, hk]
  simp [h1, h2]

theorem unionKeysAll_const_singleton (inst : String) (ss : List Series)
    (hk : ∀ s ∈ ss, seriesKeys s = [inst]) (hne : ss ≠ []) :
    unionKeysAll ss = [inst] := by
  induction ss with
  | nil => exact absurd rfl hne
  | cons s rest ih =>
    rw [unionKeysAll, hk s (by simp)]
    cases rest with
    | nil =>
      rw [unionKeysAll]
      exact unionKeys_nil_right [inst]
    | cons r rs =>
      rw [ih (fun u hu => hk u (List.mem_cons_of_mem _ hu)) (by simp)]
      exact unionKeys_self [inst]

theorem foldl_lookup_singletons (inst : String) (vs : List ℚ) (fill c : ℚ) :
    (vs.map (fun v => ([(inst, some v)] : Series))).foldl
      (fun acc s => acc + (lookupCell s inst).getD fill) c = c + vs.sum := by
  induction vs generalizing c with
  | nil => simp
  | cons v rest ih =>
    have hv : lookupCell [(inst, some v)] inst = some v := by simp [lookupCell]
    simp only [List.map_cons, List.foldl_cons, List.sum_cons, hv, Option.getD_some, ih]
    ring

theorem sum_all_singletons (inst : String) (vs : List ℚ) (hne : vs ≠ []) (fill : ℚ) :
    sum_all_indicators (vs.map (fun v => [(inst, some v)])) fill
      = [(inst, some vs.sum)] := by
  have hkeys : unionKeysAll (vs.map (fun v => [(inst, some v)])) = [inst] := by
    refine unionKeysAll_const_singleton inst _ ?_ (by simpa using hne)
    intro s hs
    rcases List.mem_map.mp hs with ⟨v, _, rfl⟩
    rfl
  rw [sum_all_indicators, hkeys]
  simp only [List.map_cons, List.map_nil, foldl_lookup_singletons]
  norm_num

/-- C1: the aggregation of child tables that all report the same instrument
with known deal_amount and trade_price recovers the deal_amount-weighted
average price: child prices are rewritten to notional, summed with the deal
amounts, and the quotient of the sums is taken (exact in the rational model;
the summed deal amount must be nonzero for the weighted average to exist,
a zero sum being reindexed to the missing sentinel by the code). -/
theorem agg_trade_price_recovers_weighted_average (inst : String)
    (l : List (ℚ × ℚ)) (hne : l ≠ [])
    (hsum : (l.map Prod.fst).sum ≠ 0) :
    lookupCell (agg_order_trade_info
        (l.map (fun dp => singletonChild inst dp.1 dp.2)) emptyTable).trade_price inst
      = some ((l.map (fun dp => dp.1 * dp.2)).sum / (l.map Prod.fst).sum) := by
  have htp : (agg_order_trade_info
        (l.map (fun dp => singletonChild inst dp.1 dp.2)) emptyTable).trade_price
      = seriesDiv
          (sum_all_indicators
            (((l.map (fun dp => singletonChild inst dp.1 dp.2)).map
              (fun c => ({ c with
                trade_price := seriesMul c.deal_amount c.trade_price } :
                  OrderIndicatorTable))).map (·.trade_price)) 0)
          (replaceZeroWithNaN (sum_all_indicators
            (((l.map (fun dp => singletonChild inst dp.1 dp.2)).map
              (fun c => ({ c with
                trade_price := seriesMul c.deal_amount c.trade_price } :
                  OrderIndicatorTable))).map (·.deal_amount)) 0)) := rfl
  have h1 : ((l.map (fun dp => singletonChild inst dp.1 dp.2)).map
        (fun c => ({ c with
          trade_price := seriesMul c.deal_amount c.trade_price } :
            OrderIndicatorTable))).map (·.trade_price)
      = (l.map (fun dp => dp.1 * dp.2)).map (fun v => ([(inst, some v)] : Series)) := by
    rw [List.map_map, List.map_map, List.map_map]
    refine List.map_congr_left ?_
    intro dp _
    show seriesMul [(inst, some dp.1)] [(inst, some dp.2)] = _
    rw [seriesMul, seriesBin_singleton]
    rfl
  have h2 : ((l.map (fun dp => singletonChild inst dp.1 dp.2)).map
        (fun c => ({ c with
          trade_price := seriesMul c.deal_amount c.trade_price } :
            OrderIndicatorTable))).map (·.deal_amount)
      = (l.map Prod.fst).map (fun v => ([(inst, some v)] : Series)) := by
    rw [List.map_map, List.map_map, List.map_map]
    exact List.map_congr_left (fun dp _ => rfl)
  have hz : replaceZeroWithNaN [(inst, some ((l.map Prod.fst).sum))]
      = [(inst, some ((l.map Prod.fst).sum))] := by
    simp [replaceZeroWithNaN, hsum]
  rw [htp, h1, h2, sum_all_singletons _ _ (by simpa using hne) 0,
    sum_all_singletons _ _ (by simpa using hne) 0, hz, seriesDiv, seriesBin_singleton]
  simp [lookupCell, cellDiv, hsum]

theorem agg_trade_price_recovers_weighted_average_witness :
    lookupCell (agg_order_trade_info
        (([((1 : ℚ), (10 : ℚ)), (3, 20)]).map (fun dp => singletonChild "i" dp.1 dp.2))
        emptyTable).trade_price "i"
      = some ((([((1 : ℚ), (10 : ℚ)), (3, 20)]).map (fun dp => dp.1 * dp.2)).sum
          / (([((1 : ℚ), (10 : ℚ)), (3, 20)]).map Prod.fst).sum) :=
  agg_trade_price_recovers_weighted_average "i" _ (by decide) (by norm_num)

theorem not_cellLtEps_some (v : ℚ) : (!cellLtEps (some v)) = decide (eps ≤ v) := by
  simp [cellLtEps, ← decide_not, not_lt]

theorem except_bind_ok {ε α β : Type} (a : α) (f : α → Except ε β) :
    (Except.ok a : Except ε α) >>= f = f a := rfl

theorem except_bind_error {ε α β : Type} (e : ε) (f : α → Except ε β) :
    (Except.error e : Except ε α) >>= f = Except.error e := rfl

theorem price_filter_map_some (s : List (ℚ × ℚ)) :
    price_epsilon_filter (s.map (fun tv => (tv.1, (some tv.2 : Cell))))
      = (s.filter (fun tv => decide (eps ≤ tv.2))).map
          (fun tv => (tv.1, (some tv.2 : Cell))) := by
  induction s with
  | nil => rfl
  | cons tv rest ih =>
    simp only [List.map_cons, price_epsilon_filter, List.filter_cons,
      not_cellLtEps_some] at ih ⊢
    by_cases h : eps ≤ tv.2 <;> simp [h, ih]

theorem tsSum_map_one (l : TimeSeries) :
    tsSumPresent (l.map (fun tv => (tv.1, (some 1 : Cell)))) = (l.length : ℚ) := by
  induction l with
  | nil => rfl
  | cons tv rest ih =>
    rw [List.map_cons, tsSumPresent_eq, List.map_cons, List.sum_cons,
      ← tsSumPresent_eq, ih]
    simp only [Option.getD_some, List.length_cons]
    push_cast
    ring

theorem numerator_twap (ps : TimeSeries) :
    tsSumPresent ((ps.zip (ps.map (fun tv => (tv.1, (some 1 : Cell))))).map
      (fun pv => (pv.1.1, cellMul pv.1.2 pv.2.2))) = tsSumPresent ps := by
  rw [tsSumPresent_eq, tsSumPresent_eq]
  induction ps with
  | nil => rfl
  | cons tv rest ih =>
    simp only [List.map_cons, List.zip_cons_cons, List.sum_cons, ih]
    congr 1
    cases tv.2 with
    | none => rfl
    | some v => simp [cellMul, cellBin]

/-- C4: with the time-weighted policy and a deal-price series of present
values, the baseline resolution drops every price strictly below 1e-8 and
returns base_volume equal to the number of surviving entries (each with
weight 1) and base_price equal to their sum divided by that count. -/
theorem base_vol_pri_twap_formula (s : List (ℚ × ℚ)) (inst : String)
    (ts te : ℚ) (dir : Cell)
    (hne : s.filter (fun tv => decide (eps ≤ tv.2)) ≠ []) :
    get_base_vol_pri (seriesExchange (s.map (fun tv => (tv.1, some tv.2))))
      inst ts te dir noRangeDecision "twap" "deal_price"
    = .ok (some (some (((s.filter (fun tv => decide (eps ≤ tv.2))).map Prod.snd).sum
        / ((s.filter (fun tv => decide (eps ≤ tv.2))).length : ℚ)),
        ((s.filter (fun tv => decide (eps ≤ tv.2))).length : ℚ))) := by
  have step : get_base_vol_pri (seriesExchange (s.map (fun tv => (tv.1, some tv.2))))
      inst ts te dir noRangeDecision "twap" "deal_price"
    = (let kept := price_epsilon_filter (s.map (fun tv => (tv.1, some tv.2)))
       let vol := kept.map (fun tv => (tv.1, (some 1 : Cell)))
       let bv := tsSumPresent vol
       let num := tsSumPresent ((kept.zip vol).map
         (fun pv => (pv.1.1, cellMul pv.1.2 pv.2.2)))
       .ok (some (if bv = 0 then none else some (num / bv), bv))) := rfl
  rw [step]
  simp only [price_filter_map_some]
  rw [tsSum_map_one, numerator_twap]
  have hlen : ((((s.filter (fun tv => decide (eps ≤ tv.2))).map
      (fun tv => (tv.1, (some tv.2 : Cell)))).length : ℚ)) ≠ 0 := by
    simp only [List.length_map, ne_eq, Nat.cast_eq_zero, List.length_eq_zero]
    exact hne
  rw [if_neg hlen]
  have hsum : tsSumPresent ((s.filter (fun tv => decide (eps ≤ tv.2))).map
      (fun tv => (tv.1, (some tv.2 : Cell))))
      = ((s.filter (fun tv => decide (eps ≤ tv.2))).map Prod.snd).sum := by
    rw [tsSumPresent_eq, List.map_map]
    rfl
  rw [hsum]
  simp [List.length_map]

theorem base_vol_pri_twap_formula_witness :
    get_base_vol_pri (seriesExchange
        (([((0 : ℚ), (0 : ℚ)), (1, 1 / 1000000000), (2, 5), (3, 6)]).map
          (fun tv => (tv.1, some tv.2))))
      "i" 0 4 none noRangeDecision "twap" "deal_price"
    = .ok (some (some (11 / 2), 2)) := by
  rw [base_vol_pri_twap_formula _ "i" 0 4 none
    (by norm_num [eps]; exact List.cons_ne_nil _ _)]
  norm_num [eps]

/-- C10: the baseline price filter keeps missing-valued entries: filtering
with not-(price below 1e-8) retains every NaN entry and every entry at or
above 1e-8 and drops the rest, so a NaN price point is not discarded (a
keep-only-at-least-eps filter would drop it) and flows into the weighted
average, where it still counts in the time-weighted base volume. -/
theorem epsilon_filter_keeps_missing (s : TimeSeries) :
    price_epsilon_filter s = s.filter (fun tv => match tv.2 with
      | none => true
      | some v => decide (eps ≤ v)) ∧
    price_epsilon_filter [((0 : ℚ), (none : Cell))] = [((0 : ℚ), (none : Cell))] ∧
    get_base_vol_pri (seriesExchange [((0 : ℚ), (none : Cell)), ((1 : ℚ), some 5)])
      "i" 0 1 none noRangeDecision "twap" "deal_price"
      = .ok (some (some (5 / 2), 2)) := by
  refine ⟨?_, rfl, ?_⟩
  · unfold price_epsilon_filter
    refine List.filter_congr ?_
    rintro ⟨t, c⟩ _
    cases c with
    | none => rfl
    | some v => exact not_cellLtEps_some v
  · have step : get_base_vol_pri
        (seriesExchange [((0 : ℚ), (none : Cell)), ((1 : ℚ), some 5)])
        "i" 0 1 none noRangeDecision "twap" "deal_price"
      = (let kept := price_epsilon_filter [((0 : ℚ), (none : Cell)), ((1 : ℚ), some 5)]
         let vol := kept.map (fun tv => (tv.1, (some 1 : Cell)))
         let bv := tsSumPresent vol
         let num := tsSumPresent ((kept.zip vol).map
           (fun pv => (pv.1.1, cellMul pv.1.2 pv.2.2)))
         .ok (some (if bv = 0 then none else some (num / bv), bv))) := rfl
    rw [step]
    have hkept : price_epsilon_filter [((0 : ℚ), (none : Cell)), ((1 : ℚ), some 5)]
        = [((0 : ℚ), (none : Cell)), ((1 : ℚ), some 5)] := by
      norm_num [price_epsilon_filter, cellLtEps, eps]
    rw [hkept]
    norm_num [tsSumPresent, cellMul, cellBin]

theorem epsilon_filter_keeps_missing_witness :
    price_epsilon_filter [((0 : ℚ), (none : Cell)), ((1 : ℚ), some 5)]
      = ([((0 : ℚ), (none : Cell)), ((1 : ℚ), some 5)]).filter
          (fun tv => match tv.2 with
            | none => true
            | some v => decide (eps ≤ v)) ∧
    price_epsilon_filter [((0 : ℚ), (none : Cell))] = [((0 : ℚ), (none : Cell))] ∧
    get_base_vol_pri (seriesExchange [((0 : ℚ), (none : Cell)), ((1 : ℚ), some 5)])
      "i" 0 1 none noRangeDecision "twap" "deal_price"
      = .ok (some (some (5 / 2), 2)) :=
  epsilon_filter_keeps_missing [((0 : ℚ), (none : Cell)), ((1 : ℚ), some 5)]

/-- C5 counterexample: a call whose aggregation policy is outside the
supported set does not always fail with the policy error: when the
deal-price query returns no data the function returns the no-baseline
result instead. -/
theorem base_vol_pri_policy_counterexample :
    ("bad" ≠ "twap" ∧ "bad" ≠ "vwap") ∧
    get_base_vol_pri noneExchange "i" 0 1 none noRangeDecision "bad" "deal_price"
      = .ok none := by
  exact ⟨⟨by decide, by decide⟩, rfl⟩

/-- C5 amended: an IdxTradeRange always fails with the range error (it is
checked first, masking any policy problem); without it, a price source
other than deal_price always fails with the policy error; and an
aggregation policy outside the supported set fails with the policy error
provided the deal-price query actually returns data. -/
theorem base_vol_pri_unsupported_errors :
    (∀ (ex : Exchange) (inst : String) (ts te : ℚ) (dir : Cell)
      (dec : BaseTradeDecision) (agg price : String),
      dec.trade_range = some TradeRange.idx →
      get_base_vol_pri ex inst ts te dir dec agg price
        = .error .unsupportedRange) ∧
    (∀ (ex : Exchange) (inst : String) (ts te : ℚ) (dir : Cell)
      (dec : BaseTradeDecision) (agg price : String),
      dec.trade_range ≠ some TradeRange.idx → price ≠ "deal_price" →
      get_base_vol_pri ex inst ts te dir dec agg price
        = .error (.unsupportedPolicy price)) ∧
    (∀ (ex : Exchange) (inst : String) (ts te : ℚ) (dir : Cell)
      (dec : BaseTradeDecision) (agg : String),
      dec.trade_range ≠ some TradeRange.idx →
      agg ≠ "twap" → agg ≠ "vwap" →
      (∀ a b : ℚ, (ex.get_deal_price inst a b dir).isSome) →
      get_base_vol_pri ex inst ts te dir dec agg "deal_price"
        = .error (.unsupportedPolicy agg)) := by
  refine ⟨?_, ?_, ?_⟩
  · intro ex inst ts te dir dec agg price h
    unfold get_base_vol_pri
    rw [h]
    rfl
  · intro ex inst ts te dir dec agg price hr hp
    unfold get_base_vol_pri
    match hdec : dec.trade_range with
    | some TradeRange.idx => exact absurd hdec hr
    | some (TradeRange.timeSeg a b) =>
      dsimp only [clip_time_range]
      rw [except_bind_ok]
      dsimp only
      rw [if_neg hp, except_bind_error]
    | none =>
      rw [except_bind_ok]
      dsimp only
      rw [if_neg hp, except_bind_error]
  · intro ex inst ts te dir dec agg hr h1 h2 hq
    unfold get_base_vol_pri
    match hdec : dec.trade_range with
    | some TradeRange.idx => exact absurd hdec hr
    | some (TradeRange.timeSeg a b) =>
      dsimp only [clip_time_range]
      rw [except_bind_ok]
      dsimp only
      rw [if_pos rfl, except_bind_ok]
      obtain ⟨pd, hpd⟩ := Option.isSome_iff_exists.mp (hq (ts ⊔ a) (te ⊓ b))
      rw [hpd]
      dsimp only
      cases pd with
      | scalar v => rw [if_neg h2, if_neg h1, except_bind_error]
      | series s => rw [if_neg h2, if_neg h1, except_bind_error]
    | none =>
      rw [except_bind_ok]
      dsimp only
      rw [if_pos rfl, except_bind_ok]
      obtain ⟨pd, hpd⟩ := Option.isSome_iff_exists.mp (hq ts te)
      rw [hpd]
      dsimp only
      cases pd with
      | scalar v => rw [if_neg h2, if_neg h1, except_bind_error]
      | series s => rw [if_neg h2, if_neg h1, except_bind_error]

theorem base_vol_pri_unsupported_errors_witness :
    get_base_vol_pri (seriesExchange []) "i" 0 1 none idxDecision "twap" "deal_price"
      = .error .unsupportedRange ∧
    get_base_vol_pri (seriesExchange []) "i" 0 1 none noRangeDecision "twap" "close"
      = .error (.unsupportedPolicy "close") ∧
    get_base_vol_pri (seriesExchange []) "i" 0 1 none noRangeDecision "bad" "deal_price"
      = .error (.unsupportedPolicy "bad") :=
  ⟨base_vol_pri_unsupported_errors.1 _ "i" 0 1 none idxDecision "twap" "deal_price" rfl,
   base_vol_pri_unsupported_errors.2.1 _ "i" 0 1 none noRangeDecision "twap" "close"
     (by decide) (by decide),
   base_vol_pri_unsupported_errors.2.2 _ "i" 0 1 none noRangeDecision "bad"
     (by decide) (by decide) (by decide) (fun a b => rfl)⟩

/-- C6: with zero orders in the outer decision (and hence no children),
the aggregation pipeline assigns amount as the empty column, assigns pa as
the empty column instead of computing it, and the step summary gives
count 0 and deal_amount 0. -/
theorem empty_step_indicators (ex : Exchange) (agg price : String) :
    agg_order_indicators ex [] [] emptyDecision agg price emptyTable
      = .ok emptyTable ∧
    emptyTable.amount = [] ∧ emptyTable.pa = [] ∧
    cal_trade_order_count emptyTable = 0 ∧ cal_deal_amount emptyTable = 0 :=
  ⟨rfl, rfl, rfl, rfl, rfl⟩

theorem empty_step_indicators_witness :
    agg_order_indicators noneExchange [] [] emptyDecision "twap" "deal_price"
        emptyTable = .ok emptyTable ∧
    emptyTable.amount = [] ∧ emptyTable.pa = [] ∧
    cal_trade_order_count emptyTable = 0 ∧ cal_deal_amount emptyTable = 0 :=
  empty_step_indicators noneExchange "twap" "deal_price"

theorem od_insert_fresh {α : Type} (h : List (ℚ × α)) (k : ℚ) (v : α)
    (hk : k ∉ h.map Prod.fst) : od_insert h k v = h ++ [(k, v)] := by
  rw [od_insert, if_neg]
  intro hc
  rcases List.any_eq_true.mp hc with ⟨kv, hmem, heq⟩
  exact hk (List.mem_map.mpr ⟨kv, hmem, of_decide_eq_true heq⟩)

theorem archive_steps_keys (steps : List (ℚ × TradeSummary)) :
    ∀ st : IndicatorState,
    (∀ k ∈ steps.map Prod.fst, k ∉ st.trade_indicator_his.map Prod.fst) →
    (steps.map Prod.fst).Nodup →
    (archive_steps steps st).trade_indicator_his.map Prod.fst
      = st.trade_indicator_his.map Prod.fst ++ steps.map Prod.fst := by
  induction steps with
  | nil =>
    intro st _ _
    simp [archive_steps]
  | cons p rest ih =>
    intro st hfresh hnd
    simp only [List.map_cons] at hnd
    have hnd' := List.nodup_cons.mp hnd
    have hstep : (Indicator.record { st with trade_indicator := p.2 }
        p.1).trade_indicator_his = st.trade_indicator_his ++ [(p.1, p.2)] := by
      show od_insert st.trade_indicator_his p.1 p.2 = _
      exact od_insert_fresh _ _ _ (hfresh p.1 (by simp))
    have harch : archive_steps (p :: rest) st
        = archive_steps rest (Indicator.record { st with trade_indicator := p.2 } p.1) :=
      rfl
    rw [harch, ih _ ?_ hnd'.2, hstep]
    · simp
    · intro k hk
      rw [hstep]
      simp only [List.map_append, List.mem_append]
      rintro (hmem | hone)
      · exact hfresh k (by simp [hk]) hmem
      · have : k = p.1 := by simpa using hone
        exact hnd'.1 (this ▸ hk)

/-- C7 counterexample: archiving steps at timestamps 1, 2, 3 in the
insertion order 2, 1, 3 exports the history rows in insertion order
2, 1, 3, which is not sorted ascending by timestamp. -/
theorem history_export_counterexample :
    ((generate_trade_indicators_dataframe
      (archive_steps [((2 : ℚ), ([] : TradeSummary)), (1, []), (3, [])] {})).map
        Prod.fst = [2, 1, 3]) ∧
    ¬ List.Chain' (· ≤ ·)
      ((generate_trade_indicators_dataframe
        (archive_steps [((2 : ℚ), ([] : TradeSummary)), (1, []), (3, [])] {})).map
          Prod.fst) := by
  have h : (generate_trade_indicators_dataframe
      (archive_steps [((2 : ℚ), ([] : TradeSummary)), (1, []), (3, [])] {})).map
        Prod.fst = [2, 1, 3] := rfl
  refine ⟨h, ?_⟩
  rw [h]
  norm_num [List.chain'_cons, List.chain'_singleton]

/-- C7 amended: the export preserves insertion order, so when steps are
archived in chronologically increasing order of start time (the order the
step driver produces), the exported history is keyed exactly by those
timestamps and is sorted ascending. -/
theorem history_export_sorted_when_chronological (steps : List (ℚ × TradeSummary))
    (h : List.Chain' (· < ·) (steps.map Prod.fst)) :
    (generate_trade_indicators_dataframe (archive_steps steps {})).map Prod.fst
      = steps.map Prod.fst ∧
    List.Chain' (· ≤ ·)
      ((generate_trade_indicators_dataframe (archive_steps steps {})).map Prod.fst) := by
  have hp : (steps.map Prod.fst).Pairwise (· < ·) := List.chain'_iff_pairwise.mp h
  have hnd : (steps.map Prod.fst).Nodup := hp.imp ne_of_lt
  have hkeys := archive_steps_keys steps {} (by intro k _ hc; simp at hc) hnd
  have hgen : (generate_trade_indicators_dataframe (archive_steps steps {})).map
      Prod.fst = steps.map Prod.fst := by
    simpa [generate_trade_indicators_dataframe] using hkeys
  refine ⟨hgen, ?_⟩
  rw [hgen]
  exact h.imp (fun _ _ hab => le_of_lt hab)

theorem history_export_sorted_when_chronological_witness :
    (generate_trade_indicators_dataframe
      (archive_steps [((1 : ℚ), ([] : TradeSummary)), (2, []), (3, [])] {})).map
        Prod.fst = ([((1 : ℚ), ([] : TradeSummary)), (2, []), (3, [])]).map Prod.fst ∧
    List.Chain' (· ≤ ·)
      ((generate_trade_indicators_dataframe
        (archive_steps [((1 : ℚ), ([] : TradeSummary)), (2, []), (3, [])] {})).map
          Prod.fst) :=
  history_export_sorted_when_chronological _
    (by norm_num [List.chain'_cons, List.chain'_singleton])

theorem countPresent_map_some {β : Type} (l : List β) (key : β → String)
    (val : β → ℚ) :
    countPresent (l.map (fun x => (key x, some (val x)))) = l.length := by
  induction l with
  | nil => rfl
  | cons x rest ih =>
    simp only [List.map_cons, countPresent, List.filter_cons] at ih ⊢
    simp [ih]

theorem sumPresent_map_some {β : Type} (l : List β) (key : β → String)
    (val : β → ℚ) :
    sumPresent (l.map (fun x => (key x, some (val x)))) = (l.map val).sum := by
  rw [sumPresent_eq, List.map_map]
  rfl

theorem seriesMean_map_some {β : Type} (l : List β) (key : β → String)
    (val : β → ℚ) (hne : l ≠ []) :
    seriesMean (l.map (fun x => (key x, some (val x))))
      = some ((l.map val).sum / (l.length : ℚ)) := by
  rw [seriesMean, countPresent_map_some, sumPresent_map_some, if_neg]
  simpa [List.length_eq_zero] using hne

theorem lookupCell_map_of_nodup {β : Type} (g : β → Cell) (key : β → String)
    (l : List β) (hnd : (l.map key).Nodup) (x : β) (hx : x ∈ l) :
    lookupCell (l.map (fun y => (key y, g y))) (key x) = g x := by
  induction l with
  | nil => cases hx
  | cons y rest ih =>
    simp only [List.map_cons] at hnd
    have hnd' := List.nodup_cons.mp hnd
    simp only [List.map_cons, lookupCell]
    rcases List.mem_cons.mp hx with rfl | hmem
    · rw [if_pos rfl]
    · have hy : key y ≠ key x := by
        intro he
        exact hnd'.1 (he ▸ List.mem_map.mpr ⟨x, hmem, rfl⟩)
      rw [if_neg hy]
      exact ih hnd'.2 hmem

theorem weightedBy_equal_abs {β : Type} (l : List β) (key : β → String)
    (pval dval : β → ℚ) (c : ℚ) (hc : c ≠ 0) (hne : l ≠ [])
    (hnd : (l.map key).Nodup) (habs : ∀ x ∈ l, |dval x| = c) :
    weightedBy (l.map (fun x => (key x, some (pval x))))
        (l.map (fun x => (key x, some (dval x))))
      = some ((l.map pval).sum / (l.length : ℚ)) := by
  have habs' : seriesAbs (l.map (fun x => (key x, some (dval x))))
      = l.map (fun x => (key x, some |dval x|)) := by
    rw [seriesAbs, List.map_map]
    rfl
  have hden : sumPresent (seriesAbs (l.map (fun x => (key x, some (dval x)))))
      = (l.length : ℚ) * c := by
    rw [habs', sumPresent_eq, List.map_map]
    have h0 : (l.map ((fun kv => Option.getD kv.2 0) ∘
          (fun x => (key x, some |dval x|)))).sum
        = (l.map (fun x => |dval x|)).sum := rfl
    rw [h0, List.map_congr_left habs, List.map_const', List.sum_replicate,
      nsmul_eq_mul]
  have hkeys1 : seriesKeys (l.map (fun x => (key x, some (pval x)))) = l.map key := by
    rw [seriesKeys, List.map_map]
    rfl
  have hkeys2 : seriesKeys (l.map (fun x => (key x, some |dval x|))) = l.map key := by
    rw [seriesKeys, List.map_map]
    rfl
  have hnum : sumPresent (seriesMul (l.map (fun x => (key x, some (pval x))))
      (seriesAbs (l.map (fun x => (key x, some (dval x))))))
      = (l.map pval).sum * c := by
    rw [habs', seriesMul, seriesBin, hkeys1, hkeys2, unionKeys_self,
      sumPresent_eq, List.map_map, List.map_map]
    have hcong : ∀ x ∈ l, (((fun kv => Option.getD kv.2 0) ∘ fun k =>
        (k, cellMul (lookupCell (l.map (fun x => (key x, some (pval x)))) k)
          (lookupCell (l.map (fun x => (key x, some |dval x|))) k))) ∘ key) x
        = pval x * c := by
      intro x hx
      have h1 : lookupCell (l.map (fun y => (key y, some (pval y)))) (key x)
          = some (pval x) :=
        lookupCell_map_of_nodup (fun y => some (pval y)) key l hnd x hx
      have h2 : lookupCell (l.map (fun y => (key y, some |dval y|))) (key x)
          = some |dval x| :=
        lookupCell_map_of_nodup (fun y => some |dval y|) key l hnd x hx
      show (cellMul (lookupCell (l.map (fun x => (key x, some (pval x)))) (key x))
        (lookupCell (l.map (fun x => (key x, some |dval x|))) (key x))).getD 0
          = pval x * c
      rw [h1, h2, habs x hx]
      rfl
    rw [List.map_congr_left hcong]
    exact List.sum_map_mul_right l pval c
  have hlen : ((l.length : ℚ)) ≠ 0 := by
    simpa [List.length_eq_zero] using hne
  show (if sumPresent (seriesAbs (l.map (fun x => (key x, some (dval x))))) = 0
      then (none : Cell)
      else some (sumPresent (seriesMul (l.map (fun x => (key x, some (pval x))))
        (seriesAbs (l.map (fun x => (key x, some (dval x))))))
          / sumPresent (seriesAbs (l.map (fun x => (key x, some (dval x)))))))
    = some ((l.map pval).sum / (l.length : ℚ))
  rw [hden, hnum, if_neg (mul_ne_zero hlen hc)]
  congr 1
  field_simp
  ring

/-- C8 counterexample: with pa present only for instrument a (value 0.1)
and missing for instrument b, but equal nonzero deal amounts 1 on both,
the mean policy skips the missing entry (result 0.1) while the
amount-weighted policy still counts the deal amount of b in its
denominator (result 0.05), so the two policies disagree. -/
theorem pa_weighting_counterexample :
    cal_trade_price_advantage "mean" mixedPaTable = .ok (some (1 / 10)) ∧
    cal_trade_price_advantage "amount_weighted" mixedPaTable
      = .ok (some (1 / 20)) := by
  constructor
  · have h : cal_trade_price_advantage "mean" mixedPaTable
        = .ok (seriesMean mixedPaTable.pa) := rfl
    rw [h]
    have h2 : seriesMean mixedPaTable.pa
        = some (sumPresent mixedPaTable.pa / (1 : ℚ)) := by
      rw [seriesMean]
      norm_num [mixedPaTable, countPresent, List.filter]
    rw [h2]
    have h3 : sumPresent mixedPaTable.pa = 1 / 10 := by
      rw [sumPresent_eq]
      norm_num [mixedPaTable]
    rw [h3]
    norm_num
  · have h : cal_trade_price_advantage "amount_weighted" mixedPaTable
        = .ok (weightedBy mixedPaTable.pa mixedPaTable.deal_amount) := rfl
    rw [h]
    have habs : seriesAbs mixedPaTable.deal_amount
        = [("a", some |(1 : ℚ)|), ("b", some |(1 : ℚ)|)] := rfl
    have hden : sumPresent (seriesAbs mixedPaTable.deal_amount) = 2 := by
      rw [habs, sumPresent_eq]
      norm_num
    have hmul : seriesMul mixedPaTable.pa (seriesAbs mixedPaTable.deal_amount)
        = [("a", some (1 / 10 * |(1 : ℚ)|)), ("b", none)] := rfl
    have hnum : sumPresent (seriesMul mixedPaTable.pa
        (seriesAbs mixedPaTable.deal_amount)) = 1 / 10 := by
      rw [hmul, sumPresent_eq]
      norm_num
    show (Except.ok (if sumPresent (seriesAbs mixedPaTable.deal_amount) = 0
        then (none : Cell)
        else some (sumPresent (seriesMul mixedPaTable.pa
          (seriesAbs mixedPaTable.deal_amount))
            / sumPresent (seriesAbs mixedPaTable.deal_amount))) : Except String Cell)
      = .ok (some (1 / 20))
    rw [hden, hnum]
    norm_num

/-- C8 amended: the mean and amount-weighted summaries of pa agree
whenever all instruments carry the same nonzero absolute deal amount
(signs may differ, only the magnitudes must coincide) and every instrument
has a present pa value (with a missing pa the mean skips the instrument
while the amount-weighted denominator still counts it, so the presence
condition is necessary). -/
theorem pa_mean_eq_amount_weighted (l : List (String × ℚ × ℚ)) (c : ℚ)
    (hc : c ≠ 0) (hne : l ≠ []) (hnd : (l.map Prod.fst).Nodup)
    (habs : ∀ kv ∈ l, |kv.2.2| = c) :
    cal_trade_price_advantage "amount_weighted" (paTable l)
      = cal_trade_price_advantage "mean" (paTable l) := by
  have hAW : cal_trade_price_advantage "amount_weighted" (paTable l)
      = .ok (weightedBy (paTable l).pa (paTable l).deal_amount) := rfl
  have hM : cal_trade_price_advantage "mean" (paTable l)
      = .ok (seriesMean (paTable l).pa) := rfl
  have hpa : (paTable l).pa = l.map (fun kv => (kv.1, some kv.2.1)) := rfl
  have hda : (paTable l).deal_amount = l.map (fun kv => (kv.1, some kv.2.2)) := rfl
  rw [hAW, hM, hpa, hda,
    weightedBy_equal_abs l Prod.fst (fun kv => kv.2.1) (fun kv => kv.2.2)
      c hc hne hnd habs,
    seriesMean_map_some l Prod.fst (fun kv => kv.2.1) hne]

theorem pa_mean_eq_amount_weighted_witness :
    cal_trade_price_advantage "amount_weighted"
        (paTable [("a", 1 / 10, 1), ("b", 3 / 10, -1)])
      = cal_trade_price_advantage "mean"
          (paTable [("a", 1 / 10, 1), ("b", 3 / 10, -1)]) ∧
    cal_trade_price_advantage "mean" (paTable [("a", 1 / 10, 1), ("b", 3 / 10, -1)])
      = .ok (some (1 / 5)) := by
  refine ⟨pa_mean_eq_amount_weighted _ 1 (by norm_num) (by decide) (by decide) ?_, ?_⟩
  · intro kv hkv
    simp only [List.mem_cons, List.not_mem_nil, or_false] at hkv
    rcases hkv with rfl | rfl
    · norm_num
    · norm_num
  · have hM : cal_trade_price_advantage "mean"
        (paTable [("a", 1 / 10, 1), ("b", 3 / 10, -1)])
        = .ok (seriesMean ((paTable [("a", 1 / 10, 1), ("b", 3 / 10, -1)]).pa)) := rfl
    have hpa : (paTable [("a", 1 / 10, 1), ("b", 3 / 10, -1)]).pa
        = ([("a", (1 : ℚ) / 10), ("b", 3 / 10)]).map (fun kv => (kv.1, some kv.2)) :=
      rfl
    rw [hM, hpa,
      seriesMean_map_some [("a", (1 : ℚ) / 10), ("b", 3 / 10)] Prod.fst Prod.snd
        (by decide)]
    norm_num

/-- C9: recording a report step is atomic on validation failure: when the
start time or any required scalar is absent, or both the end time and the
benchmark value are absent, the call reports an error and returns the
Report state unchanged (both raises precede the first mutation in the
source). -/
theorem update_report_record_atomic (r : Report)
    (trade_start_time trade_end_time account_value cash return_rate
      total_turnover turnover_rate total_cost cost_rate stock_value
      bench_value : Option ℚ)
    (h : trade_start_time = none ∨ account_value = none ∨ cash = none ∨
      return_rate = none ∨ total_turnover = none ∨ turnover_rate = none ∨
      total_cost = none ∨ cost_rate = none ∨ stock_value = none ∨
      (trade_end_time = none ∧ bench_value = none)) :
    (update_report_record r trade_start_time trade_end_time account_value cash
      return_rate total_turnover turnover_rate total_cost cost_rate stock_value
      bench_value).1 = r ∧
    (update_report_record r trade_start_time trade_end_time account_value cash
      return_rate total_turnover turnover_rate total_cost cost_rate stock_value
      bench_value).2.isSome := by
  unfold update_report_record
  by_cases h1 : trade_start_time = none ∨ account_value = none ∨ cash = none ∨
      return_rate = none ∨ total_turnover = none ∨ turnover_rate = none ∨
      total_cost = none ∨ cost_rate = none ∨ stock_value = none
  · rw [if_pos h1]
    exact ⟨rfl, rfl⟩
  · rw [if_neg h1]
    have h2 : trade_end_time = none ∧ bench_value = none := by tauto
    rw [if_pos h2]
    exact ⟨rfl, rfl⟩

theorem update_report_record_atomic_witness :
    (update_report_record {} (some 1) (some 2) (some 100) none (some 0)
      (some 0) (some 0) (some 0) (some 0) (some 50) (some 0)).1 = ({} : Report) ∧
    (update_report_record {} (some 1) (some 2) (some 100) none (some 0)
      (some 0) (some 0) (some 0) (some 0) (some 50) (some 0)).2.isSome :=
  update_report_record_atomic {} (some 1) (some 2) (some 100) none (some 0)
    (some 0) (some 0) (some 0) (some 0) (some 50) (some 0)
    (Or.inr (Or.inr (Or.inl rfl)))

end Qlib
